import Mathlib

/-!
Verification development for the sidecar-handler core: the rule model and
serialization (config.py), the operation planner (engine.py), the conflict-safe
executor (fsops.py), and the bulk attach/cleanup utility (sidecar_links.py).

Paths are modelled as absolute/relative component lists; `resolve` is the
lexical normalization of `..` segments (symlink-free filesystems), with POSIX
root clamping.  Filesystem facts the code consults (glob results, existence,
entry kinds) are supplied as explicit oracle parameters, so theorems quantify
over every filesystem the code could observe.
-/

/-- Python `str.replace` when the pattern is empty: the replacement is
interleaved before every character and at the end. -/
def replaceEmptyPat (rep : List Char) : List Char → List Char
  | [] => rep
  | c :: cs => rep ++ c :: replaceEmptyPat rep cs

/-- Fuelled scanner for Python `str.replace` with a non-empty pattern:
leftmost, non-overlapping occurrences.  Fuel is the subject length, which is
always sufficient because a match consumes at least one character. -/
def replaceCharsAux (pat rep : List Char) : Nat → List Char → List Char
  | 0, l => l
  | _ + 1, [] => []
  | fuel + 1, c :: cs =>
    if pat.isPrefixOf (c :: cs) then
      rep ++ replaceCharsAux pat rep fuel ((c :: cs).drop pat.length)
    else
      c :: replaceCharsAux pat rep fuel cs

/-- Python `s.replace(pat, rep)`. -/
def strReplace (s pat rep : String) : String :=
  if pat.data.isEmpty then ⟨replaceEmptyPat rep.data s.data⟩
  else ⟨replaceCharsAux pat.data rep.data s.data.length s.data⟩

/-- Python `str.endswith`, via character lists (structural, so closed
instances evaluate in the kernel). -/
def strEndsWith (s t : String) : Bool := t.data.isSuffixOf s.data

/-- `mask[:-n]` on ASCII strings: drop the last `n` characters. -/
def strDropRight (s : String) (n : Nat) : String :=
  ⟨s.data.take (s.data.length - n)⟩

/-- Python `str.lower` for the ASCII names the code compares. -/
def pyLower (s : String) : String := ⟨s.data.map Char.toLower⟩

/-- ASCII whitespace, as stripped by Python `str.strip`. -/
def isPyWs (c : Char) : Bool :=
  c == ' ' || c == '\t' || c == '\n' || c == '\r'
    || c == '\x0b' || c == '\x0c'

/-- Join path components with slashes. -/
def joinSlash : List String → String
  | [] => ""
  | [x] => x
  | x :: xs => x ++ "/" ++ joinSlash xs

/-- Index of the last `'.'` in a character list, if any. -/
def lastDotIndex : List Char → Option Nat
  | [] => none
  | c :: cs =>
    match lastDotIndex cs with
    | some i => some (i + 1)
    | none => if c == '.' then some 0 else none

/-- Python `pathlib` stem/suffix split of a file name: the suffix starts at the
last dot provided it is neither the first nor the last character. -/
def pySplitExt (s : String) : String × String :=
  match lastDotIndex s.data with
  | some i =>
    if 0 < i ∧ i + 1 < s.data.length then (⟨s.data.take i⟩, ⟨s.data.drop i⟩)
    else (s, "")
  | none => (s, "")

/-- `PurePath.stem`. -/
def pyStem (s : String) : String := (pySplitExt s).1

/-- `PurePath.suffix`. -/
def pySuffix (s : String) : String := (pySplitExt s).2

/-- A POSIX pure path: absolute flag plus normalized components (no `""` or
`"."` components, matching `pathlib` construction). -/
structure PurePath where
  absolute : Bool
  components : List String
deriving DecidableEq, Repr

/-- `Path.name`: the final component, or `""` for the empty path. -/
def pathName (p : PurePath) : String := p.components.getLast?.getD ""

/-- `Path.parent`: drop the final component; the root and the empty relative
path are their own parents. -/
def pathParent (p : PurePath) : PurePath :=
  ⟨p.absolute, p.components.dropLast⟩

/-- Split a string on `'/'` into raw character segments. -/
def splitSeg : List Char → List (List Char)
  | [] => [[]]
  | c :: cs =>
    if c == '/' then [] :: splitSeg cs
    else
      match splitSeg cs with
      | s :: rest => (c :: s) :: rest
      | [] => [[c]]

/-- Components contributed by a string path fragment: split on slashes,
dropping empty and `"."` segments as `pathlib` does. -/
def splitMask (s : String) : List String :=
  ((splitSeg s.data).map (fun cs => (⟨cs⟩ : String))).filter
    (fun c => !(c == "") && !(c == "."))

/-- Whether a string path fragment is absolute (leading slash). -/
def strIsAbs (s : String) : Bool :=
  match s.data with
  | '/' :: _ => true
  | _ => false

/-- Python `Path.__truediv__` with a string right operand: an absolute fragment
replaces the whole path, otherwise its components are appended. -/
def pathJoin (p : PurePath) (s : String) : PurePath :=
  if strIsAbs s then ⟨true, splitMask s⟩
  else ⟨p.absolute, p.components ++ splitMask s⟩

/-- `str(path)` on POSIX. -/
def renderPath (p : PurePath) : String :=
  if p.components.isEmpty then (if p.absolute then "/" else ".")
  else (if p.absolute then "/" else "") ++ joinSlash p.components

/-- Normalize components against an accumulator: `..` pops (clamped at the
root), `.` and empty segments vanish, anything else is pushed. -/
def normAppend (acc : List String) : List String → List String
  | [] => acc
  | c :: cs =>
    if c == ".." then normAppend acc.dropLast cs
    else if c == "." || c == "" then normAppend acc cs
    else normAppend (acc ++ [c]) cs

/-- `Path.resolve()` on a symlink-free filesystem: make the path absolute
against the working directory and normalize `..` lexically. -/
def resolvePath (cwd : List String) (p : PurePath) : List String :=
  normAppend (if p.absolute then [] else cwd) p.components

/-- One sidecar rule (`config.SidecarRule`).  `move_mode` is a plain string,
as Python does not enforce the `Literal` annotation at runtime. -/
structure SidecarRule where
  type_label : String
  embedded : Bool
  enabled : Bool
  move_mode : String := "move"
  embedded_tag : String := ""
  filemask : String := ""
deriving DecidableEq, Repr

/-- `SidecarRule.is_tree`: non-embedded and the slash-normalized filemask ends
with `/**`. -/
def SidecarRule.isTree (r : SidecarRule) : Bool :=
  !r.embedded && strEndsWith (strReplace r.filemask "\\" "/") "/**"

/-- Python `str.strip` (ASCII whitespace trim suffices for the rule fields). -/
def pyStrip (s : String) : String :=
  ⟨((s.data.dropWhile isPyWs).reverse.dropWhile isPyWs).reverse⟩

/-- `config.validate_rule`: per-field invariants, checked in source order. -/
def validateRule (r : SidecarRule) : Except String Unit :=
  if pyStrip r.type_label == "" then .error "type_label is required"
  else if !(r.move_mode == "move" || r.move_mode == "copy") then
    .error "move_mode must be \x27move\x27 or \x27copy\x27"
  else if r.embedded then
    if pyStrip r.embedded_tag == "" then
      .error "embedded_tag is required when embedded=true"
    else if !(pyStrip r.filemask == "") then
      .error "filemask must be empty when embedded=true"
    else .ok ()
  else
    if pyStrip r.filemask == "" then
      .error "filemask is required when embedded=false"
    else if !(strReplace r.filemask "{base}" "" == r.filemask) then
      -- `"{base}" in rule.filemask`: substitution changes the string iff the
      -- placeholder occurs.
      if !(pyStrip r.embedded_tag == "") then
        .error "embedded_tag must be empty when embedded=false"
      else .ok ()
    else .error "filemask must include \x27{base}\x27"

/-- Loop body of `config.validate_rules_static`: validate each rule and track
normalized filemasks of enabled external rules in `seen`. -/
def validateRulesLoop : List SidecarRule → List String → Except String Unit
  | [], _ => .ok ()
  | r :: rs, seen =>
    match validateRule r with
    | .error e => .error e
    | .ok () =>
      if r.enabled && !r.embedded then
        let normalized := strReplace r.filemask "\\" "/"
        if seen.contains normalized then
          .error ("Duplicate filemask template for enabled external rule: \x27"
            ++ normalized ++ "\x27")
        else validateRulesLoop rs (normalized :: seen)
      else validateRulesLoop rs seen

/-- `config.validate_rules_static`. -/
def validateRulesStatic (rules : List SidecarRule) : Except String Unit :=
  if rules.isEmpty then .error "At least one rule is required"
  else validateRulesLoop rules []

/-- JSON values, as produced by `json.loads`. -/
inductive JVal where
  | jnull : JVal
  | jbool : Bool → JVal
  | jnum : Int → JVal
  | jstr : String → JVal
  | jarr : List JVal → JVal
  | jobj : List (String × JVal) → JVal
deriving Repr

/-- Python `str()` of a parsed JSON value.  The rendering of containers is not
relied on by any theorem; scalar cases match CPython. -/
def pyStr : JVal → String
  | .jnull => "None"
  | .jbool true => "True"
  | .jbool false => "False"
  | .jnum n => toString n
  | .jstr s => s
  | .jarr _ => "[...]"
  | .jobj _ => "\x7b...\x7d"

/-- Python truthiness (`bool()`) of a parsed JSON value. -/
def pyBool : JVal → Bool
  | .jnull => false
  | .jbool b => b
  | .jnum n => !(n == 0)
  | .jstr s => !(s == "")
  | .jarr xs => !xs.isEmpty
  | .jobj kvs => !kvs.isEmpty

/-- `dict.get(key, default)` on a parsed JSON object. -/
def objGet (kvs : List (String × JVal)) (k : String) (dflt : JVal) : JVal :=
  match kvs.find? (fun p => p.1 == k) with
  | some p => p.2
  | none => dflt

/-- One serialized rule object, keys in `json.dumps(sort_keys=True)` order. -/
def ruleToObj (r : SidecarRule) : List (String × JVal) :=
  [("embedded", .jbool r.embedded),
   ("embedded_tag", .jstr r.embedded_tag),
   ("enabled", .jbool r.enabled),
   ("filemask", .jstr r.filemask),
   ("move_mode", .jstr r.move_mode),
   ("type_label", .jstr r.type_label)]

/-- `config.rules_to_json`, at the JSON-value level (the `json.dumps` text
codec is taken as a faithful bijection on values). -/
def rulesToJsonVal (rules : List SidecarRule) : JVal :=
  .jarr (rules.map (fun r => .jobj (ruleToObj r)))

/-- Field extraction of `config.rules_from_json` for one rule object. -/
def ruleFromObj (kvs : List (String × JVal)) : SidecarRule :=
  { type_label := pyStr (objGet kvs "type_label" (.jstr ""))
    embedded := pyBool (objGet kvs "embedded" (.jbool false))
    embedded_tag := pyStr (objGet kvs "embedded_tag" (.jstr ""))
    filemask := pyStr (objGet kvs "filemask" (.jstr ""))
    enabled := pyBool (objGet kvs "enabled" (.jbool true))
    move_mode := pyStr (objGet kvs "move_mode" (.jstr "move")) }

/-- Item loop of `config.rules_from_json`: every entry must be an object. -/
def parseRuleItems : List JVal → Except String (List SidecarRule)
  | [] => .ok []
  | .jobj kvs :: rest =>
    match parseRuleItems rest with
    | .error e => .error e
    | .ok rs => .ok (ruleFromObj kvs :: rs)
  | _ :: _ => .error "Each rule must be an object"

/-- `config.rules_from_json`, at the JSON-value level: reject non-lists and
non-object entries, rebuild the rules, then re-validate. -/
def rulesFromJsonVal : JVal → Except String (List SidecarRule)
  | .jarr items =>
    match parseRuleItems items with
    | .error e => .error e
    | .ok rules =>
      match validateRulesStatic rules with
      | .error e => .error e
      | .ok () => .ok rules
  | _ => .error "Rules JSON must be a list"

/-- `engine._expand`: substitute the `{base}` placeholder. -/
def expandMask (mask base : String) : String := strReplace mask "{base}" base

/-- `engine._normalize_mask`: backslashes become slashes. -/
def normalizeMask (mask : String) : String := strReplace mask "\\" "/"

/-- Conflict policies of the engine and executor. -/
inductive ConflictPolicy where
  | skip | overwrite | rename
deriving DecidableEq, Repr

/-- `engine.FileOp` (source path already resolved by the planner). -/
structure FileOp where
  src : PurePath
  dst : PurePath
  mode : String
  conflict : ConflictPolicy
deriving DecidableEq, Repr

/-- `engine.TreeOp` (source directory already resolved by the planner). -/
structure TreeOp where
  src_dir : PurePath
  dst_dir : PurePath
  mode : String
  conflict : ConflictPolicy
deriving DecidableEq, Repr

/-- A planned operation. -/
inductive Op where
  | file : FileOp → Op
  | tree : TreeOp → Op
deriving DecidableEq, Repr

/-- Python `repr` of a string as used by `f"{x!r}"` (quoting only; escape
sequences inside the text are not relied on by any theorem). -/
def pyRepr (s : String) : String := "\x27" ++ s ++ "\x27"

/-- The duplicate-resolved-filemask error message of
`engine.validate_rules_for_audio`, naming both rule labels. -/
def dupMaskMsg (expanded label1 label2 : String) : String :=
  "Duplicate resolved filemask for this audio file: " ++ pyRepr expanded
    ++ " (rules: " ++ pyRepr label1 ++ " and " ++ pyRepr label2 ++ ")"

/-- Whether a rule takes part in the per-audio uniqueness check. -/
def activeRule (r : SidecarRule) : Bool := r.enabled && !r.embedded

/-- A rule's filemask after normalization and `{base}` expansion. -/
def expandedMask (r : SidecarRule) (dstBase : String) : String :=
  expandMask (normalizeMask r.filemask) dstBase

/-- Loop of `engine.validate_rules_for_audio`: `seen` maps an expanded mask to
the first rule that produced it. -/
def checkExpanded (dstBase : String) :
    List SidecarRule → List (String × SidecarRule) → Except String Unit
  | [], _ => .ok ()
  | r :: rs, seen =>
    if activeRule r then
      let e := expandedMask r dstBase
      match seen.find? (fun p => p.1 == e) with
      | some prev => .error (dupMaskMsg e prev.2.type_label r.type_label)
      | none => checkExpanded dstBase rs ((e, r) :: seen)
    else checkExpanded dstBase rs seen

/-- `engine.validate_rules_for_audio`. -/
def validateRulesForAudio (rules : List SidecarRule) (dstBase : String) :
    Except String Unit :=
  match validateRulesStatic rules with
  | .error e => .error e
  | .ok () => checkExpanded dstBase rules []

/-- The filesystem facts `engine.plan_sidecar_ops` consults: the working
directory, the glob oracle (keyed by the rendered pattern string) and
existence of a resolved directory path. -/
structure FsEnv where
  cwd : List String
  glob : String → List PurePath
  treeExists : List String → Bool

/-- Insert into a list sorted by `le`. -/
def insertSorted (le : α → α → Bool) (x : α) : List α → List α
  | [] => [x]
  | y :: ys => if le x y then x :: y :: ys else y :: insertSorted le x ys

/-- Insertion sort by `le`. -/
def sortBy (le : α → α → Bool) : List α → List α
  | [] => []
  | x :: xs => insertSorted le x (sortBy le xs)

/-- `sorted({Path(p) for p in ...})`: deduplicate, then sort by the rendered
string (POSIX `Path` ordering compares the path string). -/
def dedupSort (ps : List PurePath) : List PurePath :=
  sortBy (fun p q => decide (renderPath p ≤ renderPath q)) ps.eraseDups

/-- Destination rewrite of one file-rule match in `engine.plan_sidecar_ops`:
keep the match's sub-path relative to the resolved source directory, replacing
every occurrence of the source base in the final name by the destination
base. -/
def fileOpFor (env : FsEnv) (srcDir dstDir : PurePath)
    (srcBase dstBase : String) (conflict : ConflictPolicy) (r : SidecarRule)
    (m : PurePath) : FileOp :=
  ⟨⟨true, resolvePath env.cwd m⟩,
   ⟨dstDir.absolute,
    dstDir.components
      ++ ((resolvePath env.cwd m).drop
            (resolvePath env.cwd srcDir).length).dropLast
      ++ (if strReplace (((resolvePath env.cwd m).drop
              (resolvePath env.cwd srcDir).length).getLast?.getD "")
            srcBase dstBase == "" then []
          else [strReplace (((resolvePath env.cwd m).drop
              (resolvePath env.cwd srcDir).length).getLast?.getD "")
            srcBase dstBase])⟩,
   r.move_mode, conflict⟩

/-- Per-match loop of the file-rule branch of `engine.plan_sidecar_ops`:
resolve each match, reject escapes from the resolved source directory
(`Path.relative_to` fails exactly when the resolved root is not a prefix of
the resolved match), and emit one file operation per match. -/
def planFileMatches (env : FsEnv) (srcDir dstDir : PurePath)
    (srcBase dstBase : String) (conflict : ConflictPolicy)
    (r : SidecarRule) : List PurePath → Except String (List Op)
  | [] => .ok []
  | m :: ms =>
    if (resolvePath env.cwd srcDir).isPrefixOf (resolvePath env.cwd m) then
      match planFileMatches env srcDir dstDir srcBase dstBase conflict r ms with
      | .error e => .error e
      | .ok rest =>
        .ok (.file (fileOpFor env srcDir dstDir srcBase dstBase conflict r m)
          :: rest)
    else
      .error ("Matched file escapes source directory: "
        ++ renderPath ⟨true, resolvePath env.cwd m⟩)

/-- `mask[:-3]` of a tree rule's normalized filemask. -/
def treeDirTemplate (r : SidecarRule) : String :=
  strDropRight (normalizeMask r.filemask) 3

/-- The resolved candidate source tree of a tree rule. -/
def treeSrcResolved (env : FsEnv) (srcDir : PurePath) (srcBase : String)
    (r : SidecarRule) : List String :=
  resolvePath env.cwd (pathJoin srcDir (expandMask (treeDirTemplate r) srcBase))

/-- `sorted({Path(p) for p in glob.glob(str(src_dir / expanded), recursive=True)})`
for a file rule. -/
def fileRuleMatches (env : FsEnv) (srcDir : PurePath) (srcBase : String)
    (r : SidecarRule) : List PurePath :=
  dedupSort (env.glob (renderPath (pathJoin srcDir
    (expandMask (normalizeMask r.filemask) srcBase))))

/-- One rule's contribution in `engine.plan_sidecar_ops`: the embedded check,
the tree branch with its escape check, or the file-glob branch. -/
def planRule (env : FsEnv) (srcDir dstDir : PurePath) (srcBase dstBase : String)
    (metadata : Option (String → Option Bool)) (conflict : ConflictPolicy)
    (r : SidecarRule) : Except String (List Op) :=
  if !r.enabled then .ok []
  else if r.embedded then
    match metadata with
    | some md =>
      if !(r.embedded_tag == "") then
        if (md r.embedded_tag).isNone || (md r.embedded_tag == some false) then
          .error ("Embedded tag missing or empty: " ++ r.embedded_tag)
        else .ok []
      else .ok []
    | none => .ok []
  else if r.isTree then
    if (resolvePath env.cwd srcDir).isPrefixOf
        (treeSrcResolved env srcDir srcBase r) then
      if env.treeExists (treeSrcResolved env srcDir srcBase r) then
        .ok [.tree ⟨⟨true, treeSrcResolved env srcDir srcBase r⟩,
          pathJoin dstDir (expandMask (treeDirTemplate r) dstBase),
          r.move_mode, conflict⟩]
      else .ok []
    else
      .error ("Tree path escapes source directory: "
        ++ renderPath ⟨true, treeSrcResolved env srcDir srcBase r⟩)
  else if (fileRuleMatches env srcDir srcBase r).isEmpty then .ok []
  else planFileMatches env srcDir dstDir srcBase dstBase conflict r
    (fileRuleMatches env srcDir srcBase r)

/-- Rule loop of `engine.plan_sidecar_ops`, concatenating per-rule output in
rule order. -/
def planRules (env : FsEnv) (srcDir dstDir : PurePath)
    (srcBase dstBase : String) (metadata : Option (String → Option Bool))
    (conflict : ConflictPolicy) : List SidecarRule → Except String (List Op)
  | [] => .ok []
  | r :: rs =>
    match planRule env srcDir dstDir srcBase dstBase metadata conflict r with
    | .error e => .error e
    | .ok ops₁ =>
      match planRules env srcDir dstDir srcBase dstBase metadata conflict rs with
      | .error e => .error e
      | .ok rest => .ok (ops₁ ++ rest)

/-- `engine.plan_sidecar_ops`. -/
def planSidecarOps (env : FsEnv) (srcAudioPath dstAudioPath : PurePath)
    (rules : List SidecarRule) (metadata : Option (String → Option Bool))
    (conflict : ConflictPolicy) : Except String (List Op) :=
  let srcDir := pathParent srcAudioPath
  let dstDir := pathParent dstAudioPath
  let srcBase := pyStem (pathName srcAudioPath)
  let dstBase := pyStem (pathName dstAudioPath)
  match validateRulesForAudio rules dstBase with
  | .error e => .error e
  | .ok () => planRules env srcDir dstDir srcBase dstBase metadata conflict rules

/-- State of one directory entry, as observed through `pathlib`:
`onDisk true` is a real directory, `onDisk false` a real file, and
`link broken targetIsDir` a symlink (broken when its target is missing). -/
inductive Entry where
  | absent : Entry
  | onDisk : Bool → Entry
  | link : Bool → Bool → Entry
deriving DecidableEq, Repr

/-- The entries of the destination's directory, by file name.  All conflict
candidates share the destination's parent (`Path.with_name`), so one directory
suffices. -/
def DirState := String → Entry

/-- `Path.exists()`: follows symlinks, so a broken symlink does not exist. -/
def entryExists : Entry → Bool
  | .absent => false
  | .onDisk _ => true
  | .link broken _ => !broken

/-- `Path.is_dir()`: follows symlinks. -/
def entryIsDir : Entry → Bool
  | .absent => false
  | .onDisk d => d
  | .link broken d => !broken && d

/-- `Path.is_symlink()`. -/
def entryIsSymlink : Entry → Bool
  | .link _ _ => true
  | _ => false

/-- `sidecar_links._is_broken_symlink`: a symlink whose strict resolution
fails. -/
def entryIsBroken : Entry → Bool
  | .link broken _ => broken
  | _ => false

/-- Update one entry of a directory. -/
def setEntry (d : DirState) (k : String) (e : Entry) : DirState :=
  fun k' => if k' == k then e else d k'

/-- Failures of the executor and link creator: `shutil.rmtree` refusing a
symlink, the exhausted rename probe, the post-resolution guard, and OS-level
link/copy failures. -/
inductive FsError where
  | rmtreeOnSymlink : FsError
  | noFreeName : String → FsError
  | destNotFree : String → FsError
  | osError : FsError
deriving DecidableEq, Repr

/-- Result of conflict resolution: the chosen destination name (`none` is the
skip signal), the directory state afterwards, and the names deleted. -/
structure ResolveOut where
  dest : Option String
  dir : DirState
  deleted : List String

/-- `fsops._rename_candidate`: no extension split for directories (an on-disk
check on the destination) and extensionless names. -/
def fsopsRenameCandidate (d : DirState) (name : String) (n : Nat) : String :=
  if entryIsDir (d name) || pySuffix name == "" then
    name ++ " (" ++ toString n ++ ")"
  else
    pyStem name ++ " (" ++ toString n ++ ")" ++ pySuffix name

/-- `fsops._resolve_conflict`: absence is `Path.exists()` only, so a broken
symlink destination is treated as free. -/
def fsopsResolveConflict (d : DirState) (dst : String)
    (conflict : ConflictPolicy) : Except FsError ResolveOut :=
  if !entryExists (d dst) then .ok ⟨some dst, d, []⟩
  else
    match conflict with
    | .skip => .ok ⟨none, d, []⟩
    | .overwrite =>
      if entryIsDir (d dst) then
        if entryIsSymlink (d dst) then .error .rmtreeOnSymlink
        else .ok ⟨some dst, setEntry d dst .absent, [dst]⟩
      else .ok ⟨some dst, setEntry d dst .absent, [dst]⟩
    | .rename =>
      match (List.range' 1 9999).find?
          (fun i => !entryExists (d (fsopsRenameCandidate d dst i))) with
      | some i => .ok ⟨some (fsopsRenameCandidate d dst i), d, []⟩
      | none => .error (.noFreeName dst)

/-- `sidecar_links._rename_candidate`: purely string-based suffix split. -/
def linksRenameCandidate (name : String) (n : Nat) : String :=
  if !(pySuffix name == "") then
    pyStem name ++ " (" ++ toString n ++ ")" ++ pySuffix name
  else
    name ++ " (" ++ toString n ++ ")"

/-- `sidecar_links._resolve_conflict`: a destination counts as occupied when it
exists or is a broken symlink, and rename candidates are probed under the same
test. -/
def linksResolveConflict (d : DirState) (dst : String)
    (conflict : ConflictPolicy) : Except FsError ResolveOut :=
  if !entryExists (d dst) && !entryIsBroken (d dst) then .ok ⟨some dst, d, []⟩
  else
    match conflict with
    | .skip => .ok ⟨none, d, []⟩
    | .overwrite =>
      if entryIsDir (d dst) then
        if entryIsSymlink (d dst) then .error .rmtreeOnSymlink
        else .ok ⟨some dst, setEntry d dst .absent, [dst]⟩
      else .ok ⟨some dst, setEntry d dst .absent, [dst]⟩
    | .rename =>
      match (List.range' 1 9999).find? (fun i =>
          !entryExists (d (linksRenameCandidate dst i))
            && !entryIsBroken (d (linksRenameCandidate dst i))) with
      | some i => .ok ⟨some (linksRenameCandidate dst i), d, []⟩
      | none => .error (.noFreeName dst)

/-- Link strategies of the Bulk Linker. -/
inductive LinkType where
  | auto | symlink | hardlink | copy
deriving DecidableEq, Repr

/-- `sidecar_links._create_link_or_copy`.  `symlinkOk`/`hardlinkOk`/`copyOk`
are OS oracles for the three creation primitives (an `auto` fallback step
triggers only on an OS-level failure).  `_ensure_parent` only creates ancestor
directories, so it leaves every entry of the destination's own directory
unchanged.  Returns whether a link was made, plus the directory afterwards. -/
def createLinkOrCopy (d : DirState) (dst : String) (linkType : LinkType)
    (conflict : ConflictPolicy) (symlinkOk hardlinkOk copyOk : Bool) :
    Except FsError (Bool × DirState) :=
  match linksResolveConflict d dst conflict with
  | .error e => .error e
  | .ok out =>
    match out.dest with
    | none => .ok (false, out.dir)
    | some dst2 =>
      if entryExists (out.dir dst2) || entryIsBroken (out.dir dst2) then
        .error (.destNotFree dst2)
      else
        match linkType with
        | .symlink =>
          if symlinkOk then .ok (true, setEntry out.dir dst2 (.link false false))
          else .error .osError
        | .hardlink =>
          if hardlinkOk then .ok (true, setEntry out.dir dst2 (.onDisk false))
          else .error .osError
        | .copy =>
          if copyOk then .ok (true, setEntry out.dir dst2 (.onDisk false))
          else .error .osError
        | .auto =>
          if symlinkOk then .ok (true, setEntry out.dir dst2 (.link false false))
          else if hardlinkOk then .ok (true, setEntry out.dir dst2 (.onDisk false))
          else if copyOk then .ok (true, setEntry out.dir dst2 (.onDisk false))
          else .error .osError

/-- `sidecar_links.AttachStats`. -/
structure AttachStats where
  processed_audio : Nat := 0
  created_lyrics : Nat := 0
  created_covers : Nat := 0
  skipped : Nat := 0
  errors : Nat := 0
deriving DecidableEq, Repr

/-- `sidecar_links.CleanupStats`. -/
structure CleanupStats where
  removed_broken_links : Nat := 0
  skipped : Nat := 0
  errors : Nat := 0
deriving DecidableEq, Repr

/-- What the lyrics pass observes for one audio file: whether the
same-directory `.lrc` exists, the index entry for the lowercased stem, whether
source and destination resolve to the same file, and the outcome of
`_create_link_or_copy` (`error` covers a caught `OSError`/`RuntimeError`). -/
structure LyricsView where
  localLrcExists : Bool
  stemMatches : List String
  sameFile : Bool
  linkOutcome : Except FsError Bool
deriving Repr

/-- `sidecar_links._find_lyrics_for_audio`: prefer the local sidecar, else
require exactly one stem match in the index. -/
def findLyricsForAudio (audioLrcName : String) (v : LyricsView) :
    Option String :=
  if v.localLrcExists then some audioLrcName
  else
    match v.stemMatches with
    | [m] => some m
    | _ => none

/-- One audio file's iteration of the lyrics pass of
`sidecar_links.attach_sidecars`: count it as processed, then attach (or skip,
or count an error) exactly as the loop body does. -/
def attachLyricsStep (audioLrcName : String) (v : LyricsView)
    (stats : AttachStats) : AttachStats :=
  let stats := { stats with processed_audio := stats.processed_audio + 1 }
  match findLyricsForAudio audioLrcName v with
  | none => stats
  | some _ =>
    if v.sameFile then stats
    else
      match v.linkOutcome with
      | .ok true => { stats with created_lyrics := stats.created_lyrics + 1 }
      | .ok false => { stats with skipped := stats.skipped + 1 }
      | .error _ => { stats with errors := stats.errors + 1 }

/-- One filesystem entry seen by the cleanup walk. -/
structure FsEntry where
  name : String
  isFile : Bool
  isSymlink : Bool
  targetMissing : Bool
deriving DecidableEq, Repr

/-- `_is_broken_symlink` on a walked entry. -/
def fsEntryBroken (e : FsEntry) : Bool := e.isSymlink && e.targetMissing

/-- Eligibility test of `sidecar_links.cleanup_broken_sidecar_links`: the
lowercased name ends in `.lrc` (when removing lyrics) or equals
`cover.jpg`/`cover.png` (when removing covers). -/
def cleanupEligible (removeLyrics removeCover : Bool) (e : FsEntry) : Bool :=
  let n := pyLower e.name
  (removeLyrics && strEndsWith n ".lrc")
    || (removeCover && (n == "cover.jpg" || n == "cover.png"))

/-- `sidecar_links.cleanup_broken_sidecar_links` over the walked entries:
returns the final counters and the removed entries.  `unlink` succeeds
(single-threaded run with sufficient permissions), so the error counter stays
zero. -/
def cleanupBrokenSidecarLinks (removeLyrics removeCover : Bool) :
    List FsEntry → CleanupStats × List FsEntry
  | [] => (⟨0, 0, 0⟩, [])
  | e :: es =>
    let rest := cleanupBrokenSidecarLinks removeLyrics removeCover es
    if !e.isFile && !e.isSymlink then rest
    else if !fsEntryBroken e then rest
    else if cleanupEligible removeLyrics removeCover e then
      ({ rest.1 with removed_broken_links := rest.1.removed_broken_links + 1 },
        e :: rest.2)
    else
      ({ rest.1 with skipped := rest.1.skipped + 1 }, rest.2)

/-- The two subcommands of the Bulk Linker CLI. -/
inductive CliCmd where
  | attach | cleanup
deriving DecidableEq, Repr

/-- Error count reported by the invoked subcommand. -/
def cliErrors (cmd : CliCmd) (attachStats : AttachStats)
    (cleanupStats : CleanupStats) : Nat :=
  match cmd with
  | .attach => attachStats.errors
  | .cleanup => cleanupStats.errors

/-- `scripts/sidecar_links.main`, with the root-existence check and the stats
computed by the invoked subcommand supplied as inputs. -/
def cliMain (rootExists : Bool) (cmd : CliCmd) (attachStats : AttachStats)
    (cleanupStats : CleanupStats) : Nat :=
  if !rootExists then 2
  else
    match cmd with
    | .attach => if !(attachStats.errors == 0) then 1 else 0
    | .cleanup => if !(cleanupStats.errors == 0) then 1 else 0

/-- C3: during the lyrics pass of `attach_sidecars`, when no same-directory
same-stem `.lrc` exists and the stem index yields zero or two-or-more matches,
the audio file is silently skipped: only the `processed_audio` counter is
incremented for it, and in particular the `errors`, `created_lyrics` and
`skipped` counters are unchanged. -/
theorem claim_C3 (audioLrcName : String) (v : LyricsView) (stats : AttachStats)
    (h1 : v.localLrcExists = false) (h2 : v.stemMatches.length ≠ 1) :
    attachLyricsStep audioLrcName v stats =
      { stats with processed_audio := stats.processed_audio + 1 } := by
  obtain ⟨loc, sm, sf, lo⟩ := v
  simp only at h1 h2
  subst h1
  rcases sm with _ | ⟨a, _ | ⟨b, t⟩⟩
  · rfl
  · simp at h2
  · rfl

/-- C3 witness: a concrete view with no local `.lrc` and zero stem matches. -/
theorem claim_C3_witness :
    (⟨false, [], false, .ok true⟩ : LyricsView).localLrcExists = false
    ∧ (⟨false, [], false, .ok true⟩ : LyricsView).stemMatches.length ≠ 1
    ∧ attachLyricsStep "t.lrc" ⟨false, [], false, .ok true⟩ ⟨0, 0, 0, 0, 0⟩ =
        { (⟨0, 0, 0, 0, 0⟩ : AttachStats) with processed_audio := 0 + 1 } :=
  ⟨rfl, by decide, claim_C3 "t.lrc" ⟨false, [], false, .ok true⟩ ⟨0, 0, 0, 0, 0⟩
    rfl (by decide)⟩

/-- C7 counterexample: with `remove_lyrics` enabled, a broken symlink named
`track.LRC` is removed by `cleanup_broken_sidecar_links`, although its name
does not end in `.lrc` (the code lowercases the name first, which the claim
grants only to the cover names), and it is none of the cover names. -/
theorem claim_C7_counterexample :
    (cleanupBrokenSidecarLinks true true
        [⟨"track.LRC", false, true, true⟩]).1.removed_broken_links = 1
    ∧ strEndsWith "track.LRC" ".lrc" = false
    ∧ pyLower "track.LRC" ≠ "cover.jpg"
    ∧ pyLower "track.LRC" ≠ "cover.png" := by decide

/-- C7 (amended: the `.lrc` suffix test is also case-insensitive): over any
walked entries, the removed entries are exactly the broken symlinks whose
lowercased name ends in `.lrc` (when removing lyrics) or equals
`cover.jpg`/`cover.png` (when removing covers); broken symlinks meeting
neither condition are counted as skipped and left in place; entries that are
not symlinks are never removed, and removal never touches the error
counter. -/
theorem claim_C7 (removeLyrics removeCover : Bool) (entries : List FsEntry) :
    cleanupBrokenSidecarLinks removeLyrics removeCover entries =
      (⟨entries.countP (fun e => fsEntryBroken e
            && cleanupEligible removeLyrics removeCover e),
        entries.countP (fun e => fsEntryBroken e
            && !cleanupEligible removeLyrics removeCover e),
        0⟩,
       entries.filter (fun e => fsEntryBroken e
            && cleanupEligible removeLyrics removeCover e)) := by
  induction entries with
  | nil => rfl
  | cons e es ih =>
    simp only [cleanupBrokenSidecarLinks, ih, List.countP_cons, List.filter_cons]
    by_cases hb : fsEntryBroken e
    · have hsym : e.isSymlink = true := by
        have := hb
        simp [fsEntryBroken, Bool.and_eq_true] at this
        exact this.1
      by_cases hel : cleanupEligible removeLyrics removeCover e
      · simp [hb, hel, hsym]
      · simp [hb, hel, hsym, Bool.eq_false_iff.mpr hel]
    · have hb' : fsEntryBroken e = false := Bool.eq_false_iff.mpr hb
      by_cases hf : (!e.isFile && !e.isSymlink) = true
      · simp [hb', hf]
      · simp [hb', hf]

/-- C8: the Bulk Linker CLI returns 2 when the root path does not exist;
otherwise 1 when the invoked subcommand reported at least one per-item error,
and 0 when its error count is zero. -/
theorem claim_C8 (rootExists : Bool) (cmd : CliCmd) (attachStats : AttachStats)
    (cleanupStats : CleanupStats) :
    cliMain rootExists cmd attachStats cleanupStats =
      if rootExists = false then 2
      else if cliErrors cmd attachStats cleanupStats ≠ 0 then 1 else 0 := by
  cases rootExists <;> cases cmd <;> simp [cliMain, cliErrors]

lemma pyStem_length_add (s : String) :
    (pyStem s).length + (pySuffix s).length = s.length := by
  have hnil : ("" : String).length = 0 := rfl
  unfold pyStem pySuffix pySplitExt
  cases h : lastDotIndex s.data with
  | none => simp [hnil]
  | some i =>
    show (if 0 < i ∧ i + 1 < s.data.length
            then ((⟨s.data.take i⟩ : String), (⟨s.data.drop i⟩ : String))
            else (s, "")).1.length
        + (if 0 < i ∧ i + 1 < s.data.length
            then ((⟨s.data.take i⟩ : String), (⟨s.data.drop i⟩ : String))
            else (s, "")).2.length = s.length
    by_cases hc : 0 < i ∧ i + 1 < s.data.length
    · rw [if_pos hc]
      show (s.data.take i).length + (s.data.drop i).length = s.length
      rw [List.length_take, List.length_drop]
      have hl : s.length = s.data.length := rfl
      omega
    · rw [if_neg hc]
      simp [hnil]

lemma linksRenameCandidate_length (name : String) (n : Nat) :
    name.length < (linksRenameCandidate name n).length := by
  have hp : (" (" : String).length = 2 := rfl
  have hq : (")" : String).length = 1 := rfl
  unfold linksRenameCandidate
  have hst := pyStem_length_add name
  by_cases h : (pySuffix name == "") = true
  · simp [h, String.length_append, hp, hq]
    omega
  · simp [h, String.length_append, hp, hq]
    omega

lemma linksRenameCandidate_ne (name : String) (n : Nat) :
    linksRenameCandidate name n ≠ name := by
  intro h
  have h1 := linksRenameCandidate_length name n
  rw [h] at h1
  omega

lemma find?_range'_spec_some (p : Nat → Bool) :
    ∀ (n s a : Nat), (List.range' s n).find? p = some a →
      s ≤ a ∧ a < s + n ∧ p a = true ∧ ∀ j, s ≤ j → j < a → p j = false := by
  intro n
  induction n with
  | zero => intro s a h; simp [List.range'] at h
  | succ n ih =>
    intro s a h
    have hr : List.range' s (n + 1) = s :: List.range' (s + 1) n := rfl
    rw [hr] at h
    cases hp : p s with
    | false =>
      rw [List.find?_cons_of_neg _ (by simp [hp])] at h
      obtain ⟨h1, h2, h3, h4⟩ := ih (s + 1) a h
      refine ⟨by omega, by omega, h3, ?_⟩
      intro j hj1 hj2
      rcases Nat.eq_or_lt_of_le hj1 with rfl | hlt
      · exact hp
      · exact h4 j (by omega) hj2
    | true =>
      rw [List.find?_cons_of_pos _ (by simp [hp])] at h
      cases h
      exact ⟨Nat.le_refl s, by omega, hp,
        fun j hj1 hj2 => absurd hj1 (by omega)⟩

lemma find?_range'_spec_none (p : Nat → Bool) (n s : Nat)
    (h : (List.range' s n).find? p = none) :
    ∀ j, s ≤ j → j < s + n → p j = false := by
  intro j h1 h2
  have hmem : j ∈ List.range' s n := by
    rw [List.mem_range'_1]
    exact ⟨h1, h2⟩
  have := List.find?_eq_none.mp h j hmem
  exact Bool.eq_false_iff.mpr this

/-- C9: a destination that is a broken symlink is treated as absent by the
executor's conflict resolution: for every policy, `fsops._resolve_conflict`
returns the destination unchanged with nothing deleted; the Bulk Linker's
`_resolve_conflict`, by contrast, counts it as existing, so it never returns
the destination unchanged without an action (skip returns the skip signal,
overwrite deletes the link first, rename returns a different candidate). -/
theorem claim_C9 (d : DirState) (dst : String) (tdir : Bool)
    (h : d dst = .link true tdir) :
    (∀ pol, ∃ out, fsopsResolveConflict d dst pol = .ok out
        ∧ out.dest = some dst ∧ out.deleted = [])
    ∧ (∀ pol out, linksResolveConflict d dst pol = .ok out →
        ¬(out.dest = some dst ∧ out.deleted = [])) := by
  constructor
  · intro pol
    refine ⟨⟨some dst, d, []⟩, ?_, rfl, rfl⟩
    unfold fsopsResolveConflict
    simp [h, entryExists]
  · intro pol out hout
    have hex : entryExists (d dst) = false := by rw [h]; rfl
    have hbr : entryIsBroken (d dst) = true := by rw [h]; rfl
    have hdir : entryIsDir (d dst) = false := by rw [h]; rfl
    cases pol with
    | skip =>
      unfold linksResolveConflict at hout
      rw [hex, hbr] at hout
      simp only [Bool.not_false, Bool.not_true, Bool.and_false,
        Bool.false_eq_true, if_false] at hout
      cases hout
      rintro ⟨h1, _⟩
      simp at h1
    | overwrite =>
      unfold linksResolveConflict at hout
      rw [hex, hbr, hdir] at hout
      simp only [Bool.not_false, Bool.not_true, Bool.and_false,
        Bool.false_eq_true, if_false] at hout
      cases hout
      rintro ⟨_, h2⟩
      simp at h2
    | rename =>
      unfold linksResolveConflict at hout
      rw [hex, hbr] at hout
      simp only [Bool.not_false, Bool.not_true, Bool.and_false,
        Bool.false_eq_true, if_false] at hout
      cases hfind : (List.range' 1 9999).find? (fun i =>
          !entryExists (d (linksRenameCandidate dst i))
            && !entryIsBroken (d (linksRenameCandidate dst i))) with
      | none => rw [hfind] at hout; cases hout
      | some i =>
        rw [hfind] at hout
        cases hout
        rintro ⟨h1, _⟩
        simp only [Option.some.injEq] at h1
        exact linksRenameCandidate_ne dst i h1

/-- C9 witness: a concrete directory where the destination is a broken
symlink. -/
theorem claim_C9_witness :
    ((fun _ => Entry.link true false) : DirState) "x" = Entry.link true false
    ∧ ((∀ pol, ∃ out,
          fsopsResolveConflict (fun _ => Entry.link true false) "x" pol = .ok out
            ∧ out.dest = some "x" ∧ out.deleted = [])
        ∧ (∀ pol out,
            linksResolveConflict (fun _ => Entry.link true false) "x" pol = .ok out →
              ¬(out.dest = some "x" ∧ out.deleted = []))) :=
  ⟨rfl, claim_C9 (fun _ => Entry.link true false) "x" false rfl⟩

/-- C5: with an existing destination, the executor's rename policy probes the
candidates `fsops._rename_candidate(dst, i)` for `i = 1, ..., 9999` (name
`(n)` without extension split for directories and extensionless names, by that
function's definition); it returns the first candidate that does not exist,
and raises the fatal internal error when all 9,999 candidates exist. -/
theorem claim_C5 (d : DirState) (dst : String)
    (hex : entryExists (d dst) = true) :
    (∀ out, fsopsResolveConflict d dst .rename = .ok out →
      ∃ i, 1 ≤ i ∧ i ≤ 9999
        ∧ out.dest = some (fsopsRenameCandidate d dst i)
        ∧ entryExists (d (fsopsRenameCandidate d dst i)) = false
        ∧ ∀ j, 1 ≤ j → j < i →
            entryExists (d (fsopsRenameCandidate d dst j)) = true)
    ∧ ((∀ i, 1 ≤ i → i ≤ 9999 →
          entryExists (d (fsopsRenameCandidate d dst i)) = true) →
        fsopsResolveConflict d dst .rename = .error (.noFreeName dst)) := by
  constructor
  · intro out hout
    unfold fsopsResolveConflict at hout
    rw [hex] at hout
    simp only [Bool.not_true, Bool.false_eq_true, if_false] at hout
    cases hfind : (List.range' 1 9999).find?
        (fun i => !entryExists (d (fsopsRenameCandidate d dst i))) with
    | none => rw [hfind] at hout; cases hout
    | some i =>
      rw [hfind] at hout
      cases hout
      obtain ⟨h1, h2, h3, h4⟩ := find?_range'_spec_some _ 9999 1 i hfind
      refine ⟨i, h1, by omega, rfl, by simpa using h3, ?_⟩
      intro j hj1 hj2
      have := h4 j hj1 hj2
      simpa using this
  · intro hall
    unfold fsopsResolveConflict
    rw [hex]
    simp only [Bool.not_true, Bool.false_eq_true, if_false]
    cases hfind : (List.range' 1 9999).find?
        (fun i => !entryExists (d (fsopsRenameCandidate d dst i))) with
    | none => rfl
    | some i =>
      obtain ⟨h1, h2, h3, _⟩ := find?_range'_spec_some _ 9999 1 i hfind
      have := hall i h1 (by omega)
      rw [this] at h3
      simp at h3

/-- C5 witness: destination `a.txt` exists and so does `a (1).txt`, so the
probe returns `a (2).txt`. -/
theorem claim_C5_witness :
    entryExists
        (((fun n => if n == "a.txt" || n == "a (1).txt"
            then Entry.onDisk false else Entry.absent) : DirState) "a.txt") = true
    ∧ ((∀ out, fsopsResolveConflict
          (fun n => if n == "a.txt" || n == "a (1).txt"
            then Entry.onDisk false else Entry.absent) "a.txt" .rename = .ok out →
        ∃ i, 1 ≤ i ∧ i ≤ 9999
          ∧ out.dest = some (fsopsRenameCandidate
              (fun n => if n == "a.txt" || n == "a (1).txt"
                then Entry.onDisk false else Entry.absent) "a.txt" i)
          ∧ entryExists ((fun n => if n == "a.txt" || n == "a (1).txt"
                then Entry.onDisk false else Entry.absent)
              (fsopsRenameCandidate
                (fun n => if n == "a.txt" || n == "a (1).txt"
                  then Entry.onDisk false else Entry.absent) "a.txt" i)) = false
          ∧ ∀ j, 1 ≤ j → j < i →
              entryExists ((fun n => if n == "a.txt" || n == "a (1).txt"
                  then Entry.onDisk false else Entry.absent)
                (fsopsRenameCandidate
                  (fun n => if n == "a.txt" || n == "a (1).txt"
                    then Entry.onDisk false else Entry.absent) "a.txt" j)) = true)
      ∧ ((∀ i, 1 ≤ i → i ≤ 9999 →
            entryExists ((fun n => if n == "a.txt" || n == "a (1).txt"
                then Entry.onDisk false else Entry.absent)
              (fsopsRenameCandidate
                (fun n => if n == "a.txt" || n == "a (1).txt"
                  then Entry.onDisk false else Entry.absent) "a.txt" i)) = true) →
          fsopsResolveConflict
            (fun n => if n == "a.txt" || n == "a (1).txt"
              then Entry.onDisk false else Entry.absent) "a.txt" .rename
            = .error (.noFreeName "a.txt"))) :=
  ⟨rfl, claim_C5
    (fun n => if n == "a.txt" || n == "a (1).txt"
      then Entry.onDisk false else Entry.absent) "a.txt" rfl⟩

lemma linksResolveConflict_error_shape (d : DirState) (dst : String)
    (pol : ConflictPolicy) (e : FsError)
    (h : linksResolveConflict d dst pol = .error e) :
    e = .rmtreeOnSymlink ∨ ∃ s, e = .noFreeName s := by
  unfold linksResolveConflict at h
  by_cases hfree :
      (!entryExists (d dst) && !entryIsBroken (d dst)) = true
  · rw [if_pos hfree] at h; cases h
  · rw [if_neg hfree] at h
    cases pol with
    | skip => cases h
    | overwrite =>
      by_cases hdir : entryIsDir (d dst) = true
      · rw [if_pos hdir] at h
        by_cases hsym : entryIsSymlink (d dst) = true
        · rw [if_pos hsym] at h; cases h; exact Or.inl rfl
        · rw [if_neg hsym] at h; cases h
      · rw [if_neg hdir] at h; cases h
    | rename =>
      cases hfind : (List.range' 1 9999).find? (fun i =>
          !entryExists (d (linksRenameCandidate dst i))
            && !entryIsBroken (d (linksRenameCandidate dst i))) with
      | none => rw [hfind] at h; cases h; exact Or.inr ⟨dst, rfl⟩
      | some i => rw [hfind] at h; cases h

lemma linksResolveConflict_ok_free (d : DirState) (dst : String)
    (pol : ConflictPolicy) (out : ResolveOut)
    (h : linksResolveConflict d dst pol = .ok out) :
    ∀ n, out.dest = some n →
      entryExists (out.dir n) = false ∧ entryIsBroken (out.dir n) = false := by
  intro n hn
  unfold linksResolveConflict at h
  by_cases hfree :
      (!entryExists (d dst) && !entryIsBroken (d dst)) = true
  · rw [if_pos hfree] at h
    cases h
    simp only [Option.some.injEq] at hn
    subst hn
    simp only [Bool.and_eq_true, Bool.not_eq_true'] at hfree
    exact hfree
  · rw [if_neg hfree] at h
    cases pol with
    | skip => cases h; simp at hn
    | overwrite =>
      by_cases hdir : entryIsDir (d dst) = true
      · rw [if_pos hdir] at h
        by_cases hsym : entryIsSymlink (d dst) = true
        · rw [if_pos hsym] at h; cases h
        · rw [if_neg hsym] at h
          cases h
          simp only [Option.some.injEq] at hn
          subst hn
          simp [setEntry, entryExists, entryIsBroken]
      · rw [if_neg hdir] at h
        cases h
        simp only [Option.some.injEq] at hn
        subst hn
        simp [setEntry, entryExists, entryIsBroken]
    | rename =>
      cases hfind : (List.range' 1 9999).find? (fun i =>
          !entryExists (d (linksRenameCandidate dst i))
            && !entryIsBroken (d (linksRenameCandidate dst i))) with
      | none => rw [hfind] at h; cases h
      | some i =>
        rw [hfind] at h
        cases h
        simp only [Option.some.injEq] at hn
        subst hn
        have hp := List.find?_some hfind
        simp only [Bool.and_eq_true, Bool.not_eq_true'] at hp
        exact hp

/-- Recognizer for the "destination not free after conflict resolution"
`RuntimeError` of `_create_link_or_copy`. -/
def isDestNotFreeError : Except FsError (Bool × DirState) → Bool
  | .error (.destNotFree _) => true
  | _ => false

/-- C10: the guard in `_create_link_or_copy` is unreachable under
single-threaded execution: whatever directory state, link type, conflict
policy and OS outcomes, the function never fails with the
destination-not-free error, because every non-skip result of
`_resolve_conflict` is free (neither existing nor a broken symlink) in the
directory state it returns. -/
theorem claim_C10 (d : DirState) (dst : String) (lt : LinkType)
    (pol : ConflictPolicy) (symlinkOk hardlinkOk copyOk : Bool) :
    isDestNotFreeError
      (createLinkOrCopy d dst lt pol symlinkOk hardlinkOk copyOk) = false := by
  unfold createLinkOrCopy
  split
  next e heq =>
    rcases linksResolveConflict_error_shape d dst pol e heq with h | ⟨t, h⟩ <;>
      subst h <;> rfl
  next out heq =>
    split
    next hdest => rfl
    next dst2 hdest =>
      obtain ⟨h1, h2⟩ := linksResolveConflict_ok_free d dst pol out heq dst2 hdest
      rw [h1, h2]
      simp only [Bool.or_self, Bool.false_eq_true, if_false]
      cases lt <;> cases symlinkOk <;> cases hardlinkOk <;> cases copyOk <;> rfl

lemma find?_cons_eq_none_iff (p : α → Bool) (x : α) (l : List α) :
    ((x :: l).find? p = none) ↔ (p x = false ∧ l.find? p = none) := by
  cases hx : p x
  · rw [List.find?_cons_of_neg _ (by simp [hx])]
    simp
  · rw [List.find?_cons_of_pos _ hx]
    simp

lemma checkExpanded_cons (b : String) (r : SidecarRule)
    (rs : List SidecarRule) (seen : List (String × SidecarRule)) :
    checkExpanded b (r :: rs) seen =
      if activeRule r = true then
        match seen.find? (fun p => p.1 == expandedMask r b) with
        | some prev =>
          .error (dupMaskMsg (expandedMask r b) prev.2.type_label
            r.type_label)
        | none => checkExpanded b rs ((expandedMask r b, r) :: seen)
      else checkExpanded b rs seen := rfl

lemma checkExpanded_ok_iff (b : String) :
    ∀ (rs : List SidecarRule) (seen : List (String × SidecarRule)),
      checkExpanded b rs seen = .ok ()
        ↔ (((rs.filter activeRule).map (fun r => expandedMask r b)).Nodup
            ∧ ∀ r ∈ rs.filter activeRule,
                seen.find? (fun p => p.1 == expandedMask r b) = none) := by
  intro rs
  induction rs with
  | nil => intro seen; simp [checkExpanded]
  | cons r rs ih =>
    intro seen
    by_cases ha : activeRule r = true
    · rw [checkExpanded_cons, if_pos ha]
      cases hfind : seen.find? (fun p => p.1 == expandedMask r b) with
      | some prev =>
        show Except.error (dupMaskMsg (expandedMask r b) prev.2.type_label
            r.type_label) = Except.ok () ↔ _
        simp only [List.filter_cons_of_pos ha, List.map_cons]
        constructor
        · intro h; cases h
        · rintro ⟨-, hall⟩
          have := hall r (List.mem_cons_self r _)
          rw [hfind] at this
          cases this
      | none =>
        show checkExpanded b rs ((expandedMask r b, r) :: seen)
            = Except.ok () ↔ _
        rw [ih ((expandedMask r b, r) :: seen)]
        simp only [List.filter_cons_of_pos ha, List.map_cons,
          List.nodup_cons, List.mem_cons, find?_cons_eq_none_iff]
        constructor
        · rintro ⟨hnd, hall⟩
          have hA : ∀ r' ∈ rs.filter activeRule,
              (expandedMask r b == expandedMask r' b) = false :=
            fun r' hr' => (hall r' hr').1
          have hB : ∀ r' ∈ rs.filter activeRule,
              seen.find? (fun p => p.1 == expandedMask r' b) = none :=
            fun r' hr' => (hall r' hr').2
          refine ⟨⟨?_, hnd⟩, ?_⟩
          · intro hmem
            obtain ⟨r', hr', he⟩ := List.mem_map.mp hmem
            have := hA r' hr'
            rw [he] at this
            simp at this
          · intro r' hr'
            rcases hr' with rfl | hr'
            · exact hfind
            · exact hB r' hr'
        · rintro ⟨⟨hmem, hnd⟩, hall⟩
          refine ⟨hnd, ?_⟩
          intro r' hr'
          refine ⟨?_, hall r' (Or.inr hr')⟩
          rw [beq_eq_false_iff_ne]
          intro he
          exact hmem (List.mem_map.mpr ⟨r', hr', he.symm⟩)
    · rw [checkExpanded_cons, if_neg ha]
      rw [ih seen]
      simp [List.filter_cons_of_neg (by simpa using ha)]

lemma checkExpanded_error_mem (b : String) :
    ∀ (rs : List SidecarRule) (seen : List (String × SidecarRule))
      (pool : List SidecarRule) (e : String),
      (∀ p ∈ seen, p.1 = expandedMask p.2 b ∧ activeRule p.2 = true
        ∧ p.2 ∈ pool) →
      checkExpanded b rs seen = .error e →
      ∃ r1 r2, (r1 ∈ pool ∨ r1 ∈ rs) ∧ r2 ∈ rs ∧ activeRule r1 = true
        ∧ activeRule r2 = true ∧ expandedMask r1 b = expandedMask r2 b
        ∧ e = dupMaskMsg (expandedMask r2 b) r1.type_label r2.type_label := by
  intro rs
  induction rs with
  | nil => intro seen pool e _ h; simp [checkExpanded] at h
  | cons r rs ih =>
    intro seen pool e hseen h
    by_cases ha : activeRule r = true
    · rw [checkExpanded_cons, if_pos ha] at h
      cases hfind : seen.find? (fun p => p.1 == expandedMask r b) with
      | some prev =>
        rw [hfind] at h
        cases h
        have hpred := List.find?_some hfind
        have hmem := List.mem_of_find?_eq_some hfind
        obtain ⟨hp1, hp2, hp3⟩ := hseen prev hmem
        have hkey : prev.1 = expandedMask r b := by
          simpa using hpred
        refine ⟨prev.2, r, Or.inl hp3, List.mem_cons_self r rs, hp2, ha,
          ?_, ?_⟩
        · rw [← hp1, hkey]
        · rfl
      | none =>
        rw [hfind] at h
        have hseen' : ∀ p ∈ (expandedMask r b, r) :: seen,
            p.1 = expandedMask p.2 b ∧ activeRule p.2 = true
              ∧ p.2 ∈ r :: pool := by
          intro p hp
          rcases List.mem_cons.mp hp with rfl | hp
          · exact ⟨rfl, ha, List.mem_cons_self r pool⟩
          · obtain ⟨h1, h2, h3⟩ := hseen p hp
            exact ⟨h1, h2, List.mem_cons_of_mem r h3⟩
        obtain ⟨r1, r2, hr1, hr2, h3, h4, h5, h6⟩ :=
          ih ((expandedMask r b, r) :: seen) (r :: pool) e hseen' h
        refine ⟨r1, r2, ?_, List.mem_cons_of_mem r hr2, h3, h4, h5, h6⟩
        rcases hr1 with hr1 | hr1
        · rcases List.mem_cons.mp hr1 with rfl | hr1
          · exact Or.inr (List.mem_cons_self r1 rs)
          · exact Or.inl hr1
        · exact Or.inr (List.mem_cons_of_mem r hr1)
    · rw [checkExpanded_cons, if_neg ha] at h
      obtain ⟨r1, r2, hr1, hr2, h3, h4, h5, h6⟩ := ih seen pool e hseen h
      exact ⟨r1, r2, hr1.imp id (List.mem_cons_of_mem r),
        List.mem_cons_of_mem r hr2, h3, h4, h5, h6⟩

/-- C2 counterexample: the empty rule set contains no colliding pair of
enabled, non-embedded rules, yet `validate_rules_for_audio` rejects it (the
static validation it runs first requires at least one rule), so the claim's
"otherwise it accepts" fails as stated for rule sets that do not pass static
validation. -/
theorem claim_C2_counterexample :
    (((([] : List SidecarRule).filter activeRule).map
        (fun r => expandedMask r "b")).Nodup)
    ∧ validateRulesForAudio [] "b" = .error "At least one rule is required" :=
  ⟨by simp, rfl⟩

/-- C2 (amended: restricted to rule sets that pass static validation): for
every such rule set and destination base name, `validate_rules_for_audio`
accepts exactly when the `\x7bbase\x7d`-expanded normalized filemasks of the
enabled, non-embedded rules are pairwise distinct, and whenever it rejects,
the error is the duplicate-resolved-filemask message naming the type labels of
a colliding pair of enabled, non-embedded rules. -/
theorem claim_C2 (rules : List SidecarRule) (dstBase : String)
    (hstatic : validateRulesStatic rules = .ok ()) :
    (validateRulesForAudio rules dstBase = .ok ()
      ↔ ((rules.filter activeRule).map
          (fun r => expandedMask r dstBase)).Nodup)
    ∧ (∀ e, validateRulesForAudio rules dstBase = .error e →
        ∃ r1 r2, r1 ∈ rules ∧ r2 ∈ rules ∧ activeRule r1 = true
          ∧ activeRule r2 = true
          ∧ expandedMask r1 dstBase = expandedMask r2 dstBase
          ∧ e = dupMaskMsg (expandedMask r2 dstBase)
              r1.type_label r2.type_label) := by
  constructor
  · rw [show validateRulesForAudio rules dstBase
        = checkExpanded dstBase rules [] from by
      unfold validateRulesForAudio; rw [hstatic]]
    rw [checkExpanded_ok_iff]
    simp
  · intro e he
    rw [show validateRulesForAudio rules dstBase
        = checkExpanded dstBase rules [] from by
      unfold validateRulesForAudio; rw [hstatic]] at he
    obtain ⟨r1, r2, hr1, hr2, h3, h4, h5, h6⟩ :=
      checkExpanded_error_mem dstBase rules [] [] e (by simp) he
    refine ⟨r1, r2, ?_, hr2, h3, h4, h5, h6⟩
    rcases hr1 with hr1 | hr1
    · simp at hr1
    · exact hr1

/-- C2 witness: two statically valid rules whose distinct templates collapse
to the same string for base name `1`. -/
theorem claim_C2_witness :
    validateRulesStatic
        [⟨"jpg1", false, true, "move", "", "{base}-1.jpg"⟩,
         ⟨"jpg2", false, true, "move", "", "{base}-{base}.jpg"⟩] = .ok ()
    ∧ ((validateRulesForAudio
          [⟨"jpg1", false, true, "move", "", "{base}-1.jpg"⟩,
           ⟨"jpg2", false, true, "move", "", "{base}-{base}.jpg"⟩] "1" = .ok ()
        ↔ ((([⟨"jpg1", false, true, "move", "", "{base}-1.jpg"⟩,
              ⟨"jpg2", false, true, "move", "", "{base}-{base}.jpg"⟩]
                : List SidecarRule).filter activeRule).map
            (fun r => expandedMask r "1")).Nodup)
      ∧ (∀ e, validateRulesForAudio
            [⟨"jpg1", false, true, "move", "", "{base}-1.jpg"⟩,
             ⟨"jpg2", false, true, "move", "", "{base}-{base}.jpg"⟩] "1"
              = .error e →
          ∃ r1 r2,
            r1 ∈ [⟨"jpg1", false, true, "move", "", "{base}-1.jpg"⟩,
                  ⟨"jpg2", false, true, "move", "", "{base}-{base}.jpg"⟩]
            ∧ r2 ∈ [⟨"jpg1", false, true, "move", "", "{base}-1.jpg"⟩,
                    ⟨"jpg2", false, true, "move", "", "{base}-{base}.jpg"⟩]
            ∧ activeRule r1 = true ∧ activeRule r2 = true
            ∧ expandedMask r1 "1" = expandedMask r2 "1"
            ∧ e = dupMaskMsg (expandedMask r2 "1")
                r1.type_label r2.type_label)) :=
  ⟨rfl, claim_C2
    [⟨"jpg1", false, true, "move", "", "{base}-1.jpg"⟩,
     ⟨"jpg2", false, true, "move", "", "{base}-{base}.jpg"⟩] "1" rfl⟩

lemma ruleFromObj_toObj (r : SidecarRule) : ruleFromObj (ruleToObj r) = r := rfl

lemma parseRuleItems_map (rules : List SidecarRule) :
    parseRuleItems (rules.map (fun r => JVal.jobj (ruleToObj r)))
      = .ok rules := by
  induction rules with
  | nil => rfl
  | cons r rs ih => simp [parseRuleItems, ih, ruleFromObj_toObj]

/-- C4: for every rule set that passes static validation, deserializing its
serialized JSON-value form yields an equal rule set:
`rules_from_json (rules_to_json rules) = rules`. -/
theorem claim_C4 (rules : List SidecarRule)
    (hstatic : validateRulesStatic rules = .ok ()) :
    rulesFromJsonVal (rulesToJsonVal rules) = .ok rules := by
  simp [rulesFromJsonVal, rulesToJsonVal, parseRuleItems_map, hstatic]

/-- C4 witness: the round trip on a concrete valid one-rule set. -/
theorem claim_C4_witness :
    validateRulesStatic [⟨"lyrics", false, true, "move", "", "{base}.lrc"⟩]
        = .ok ()
    ∧ rulesFromJsonVal (rulesToJsonVal
        [⟨"lyrics", false, true, "move", "", "{base}.lrc"⟩])
      = .ok [⟨"lyrics", false, true, "move", "", "{base}.lrc"⟩] :=
  ⟨rfl, claim_C4 [⟨"lyrics", false, true, "move", "", "{base}.lrc"⟩] rfl⟩

lemma planFileMatches_cons (env : FsEnv) (srcDir dstDir : PurePath)
    (srcBase dstBase : String) (conflict : ConflictPolicy) (r : SidecarRule)
    (m : PurePath) (ms : List PurePath) :
    planFileMatches env srcDir dstDir srcBase dstBase conflict r (m :: ms) =
      if (resolvePath env.cwd srcDir).isPrefixOf (resolvePath env.cwd m)
          = true then
        match planFileMatches env srcDir dstDir srcBase dstBase conflict r ms
        with
        | .error e => .error e
        | .ok rest =>
          .ok (.file (fileOpFor env srcDir dstDir srcBase dstBase conflict r m)
            :: rest)
      else
        .error ("Matched file escapes source directory: "
          ++ renderPath ⟨true, resolvePath env.cwd m⟩) := rfl

lemma planFileMatches_spec (env : FsEnv) (srcDir dstDir : PurePath)
    (srcBase dstBase : String) (conflict : ConflictPolicy) (r : SidecarRule) :
    ∀ (ms : List PurePath) (ops : List Op),
      planFileMatches env srcDir dstDir srcBase dstBase conflict r ms
        = .ok ops →
      (∀ f : FileOp, Op.file f ∈ ops →
        (resolvePath env.cwd srcDir).isPrefixOf f.src.components = true)
      ∧ (∀ m ∈ ms, (resolvePath env.cwd srcDir).isPrefixOf
          (resolvePath env.cwd m) = true) := by
  intro ms
  induction ms with
  | nil =>
    intro ops h
    cases h
    exact ⟨fun f hf => absurd hf (List.not_mem_nil _),
      fun m hm => absurd hm (List.not_mem_nil _)⟩
  | cons m ms ih =>
    intro ops h
    rw [planFileMatches_cons] at h
    by_cases hpre :
        (resolvePath env.cwd srcDir).isPrefixOf (resolvePath env.cwd m) = true
    · rw [if_pos hpre] at h
      cases hrec : planFileMatches env srcDir dstDir srcBase dstBase conflict
          r ms with
      | error e => rw [hrec] at h; cases h
      | ok rest =>
        rw [hrec] at h
        cases h
        obtain ⟨ih1, ih2⟩ := ih rest hrec
        constructor
        · intro f hf
          rcases List.mem_cons.mp hf with heq | hf
          · have hfe : f = fileOpFor env srcDir dstDir srcBase dstBase
                conflict r m := by
              cases heq; rfl
            rw [hfe]
            exact hpre
          · exact ih1 f hf
        · intro m' hm'
          rcases List.mem_cons.mp hm' with rfl | hm'
          · exact hpre
          · exact ih2 m' hm'
    · rw [if_neg hpre] at h
      cases h

lemma planRule_spec (env : FsEnv) (srcDir dstDir : PurePath)
    (srcBase dstBase : String) (metadata : Option (String → Option Bool))
    (conflict : ConflictPolicy) (r : SidecarRule) (ops : List Op)
    (h : planRule env srcDir dstDir srcBase dstBase metadata conflict r
      = .ok ops) :
    (∀ f : FileOp, Op.file f ∈ ops →
      (resolvePath env.cwd srcDir).isPrefixOf f.src.components = true)
    ∧ (r.enabled = true → r.embedded = false → r.isTree = false →
        ∀ m ∈ fileRuleMatches env srcDir srcBase r,
          (resolvePath env.cwd srcDir).isPrefixOf (resolvePath env.cwd m)
            = true) := by
  unfold planRule at h
  cases hen : r.enabled with
  | false =>
    rw [hen] at h
    simp only [Bool.not_false, if_true] at h
    cases h
    exact ⟨fun f hf => absurd hf (List.not_mem_nil _),
      fun he => absurd he (by simp)⟩
  | true =>
    rw [hen] at h
    simp only [Bool.not_true, Bool.false_eq_true, if_false] at h
    cases hemb : r.embedded with
    | true =>
      rw [hemb] at h
      simp only [if_true] at h
      have hops : ops = [] := by
        cases metadata with
        | none => cases h; rfl
        | some md =>
          have h' : (if (!(r.embedded_tag == "")) = true then
                (if ((md r.embedded_tag).isNone
                    || (md r.embedded_tag == some false)) = true then
                  (Except.error ("Embedded tag missing or empty: "
                    ++ r.embedded_tag) : Except String (List Op))
                else .ok [])
              else .ok []) = .ok ops := h
          by_cases htag : (!(r.embedded_tag == "")) = true
          · rw [if_pos htag] at h'
            by_cases hmiss : ((md r.embedded_tag).isNone
                || (md r.embedded_tag == some false)) = true
            · rw [if_pos hmiss] at h'; cases h'
            · rw [if_neg hmiss] at h'; cases h'; rfl
          · rw [if_neg htag] at h'; cases h'; rfl
      subst hops
      exact ⟨fun f hf => absurd hf (List.not_mem_nil _),
        fun _ hembf => nomatch hembf⟩
    | false =>
      rw [hemb] at h
      simp only [Bool.false_eq_true, if_false] at h
      cases htree : r.isTree with
      | true =>
        rw [htree] at h
        simp only [if_true] at h
        have hops : (∀ f : FileOp, Op.file f ∈ ops → False) := by
          by_cases hpre : (resolvePath env.cwd srcDir).isPrefixOf
              (treeSrcResolved env srcDir srcBase r) = true
          · rw [if_pos hpre] at h
            by_cases hex : env.treeExists (treeSrcResolved env srcDir srcBase r)
                = true
            · rw [if_pos hex] at h
              cases h
              intro f hf
              rcases List.mem_cons.mp hf with heq | hf
              · cases heq
              · exact absurd hf (List.not_mem_nil _)
            · rw [if_neg hex] at h
              cases h
              intro f hf
              exact absurd hf (List.not_mem_nil _)
          · rw [if_neg hpre] at h
            cases h
        exact ⟨fun f hf => (hops f hf).elim,
          fun _ _ htreef => nomatch htreef⟩
      | false =>
        rw [htree] at h
        simp only [Bool.false_eq_true, if_false] at h
        by_cases hemp : (fileRuleMatches env srcDir srcBase r).isEmpty = true
        · rw [if_pos hemp] at h
          cases h
          refine ⟨fun f hf => absurd hf (List.not_mem_nil _), ?_⟩
          intro _ _ _ m hm
          rw [List.isEmpty_iff.mp hemp] at hm
          exact absurd hm (List.not_mem_nil _)
        · rw [if_neg hemp] at h
          obtain ⟨h1, h2⟩ := planFileMatches_spec env srcDir dstDir srcBase
            dstBase conflict r (fileRuleMatches env srcDir srcBase r) ops h
          exact ⟨h1, fun _ _ _ => h2⟩

lemma planRules_cons (env : FsEnv) (srcDir dstDir : PurePath)
    (srcBase dstBase : String) (metadata : Option (String → Option Bool))
    (conflict : ConflictPolicy) (r : SidecarRule) (rs : List SidecarRule) :
    planRules env srcDir dstDir srcBase dstBase metadata conflict (r :: rs) =
      match planRule env srcDir dstDir srcBase dstBase metadata conflict r with
      | .error e => .error e
      | .ok ops₁ =>
        match planRules env srcDir dstDir srcBase dstBase metadata conflict rs
        with
        | .error e => .error e
        | .ok rest => .ok (ops₁ ++ rest) := rfl

lemma planRules_spec (env : FsEnv) (srcDir dstDir : PurePath)
    (srcBase dstBase : String) (metadata : Option (String → Option Bool))
    (conflict : ConflictPolicy) :
    ∀ (rs : List SidecarRule) (ops : List Op),
      planRules env srcDir dstDir srcBase dstBase metadata conflict rs
        = .ok ops →
      (∀ f : FileOp, Op.file f ∈ ops →
        (resolvePath env.cwd srcDir).isPrefixOf f.src.components = true)
      ∧ (∀ r ∈ rs, r.enabled = true → r.embedded = false → r.isTree = false →
          ∀ m ∈ fileRuleMatches env srcDir srcBase r,
            (resolvePath env.cwd srcDir).isPrefixOf (resolvePath env.cwd m)
              = true) := by
  intro rs
  induction rs with
  | nil =>
    intro ops h
    cases h
    exact ⟨fun f hf => absurd hf (List.not_mem_nil _),
      fun r hr => absurd hr (List.not_mem_nil _)⟩
  | cons r rs ih =>
    intro ops h
    rw [planRules_cons] at h
    cases h1 : planRule env srcDir dstDir srcBase dstBase metadata conflict r
        with
    | error e => rw [h1] at h; cases h
    | ok ops₁ =>
      rw [h1] at h
      cases h2 : planRules env srcDir dstDir srcBase dstBase metadata conflict
          rs with
      | error e => rw [h2] at h; cases h
      | ok rest =>
        rw [h2] at h
        cases h
        obtain ⟨p1, p2⟩ := planRule_spec env srcDir dstDir srcBase dstBase
          metadata conflict r ops₁ h1
        obtain ⟨q1, q2⟩ := ih rest h2
        constructor
        · intro f hf
          rcases List.mem_append.mp hf with hf | hf
          · exact p1 f hf
          · exact q1 f hf
        · intro r' hr'
          rcases List.mem_cons.mp hr' with rfl | hr'
          · exact p2
          · exact q2 r' hr'

/-- C1: if `plan_sidecar_ops` succeeds, every emitted file operation's
resolved source lies inside the resolved source primary directory, and every
deduplicated, sorted glob match of every processed file rule resolved inside
that directory — equivalently (the planner is total), a glob match resolving
outside the source directory forces a configuration error, and is never
emitted as an operation. -/
theorem claim_C1 (env : FsEnv) (srcA dstA : PurePath)
    (rules : List SidecarRule) (metadata : Option (String → Option Bool))
    (conflict : ConflictPolicy) (ops : List Op)
    (h : planSidecarOps env srcA dstA rules metadata conflict = .ok ops) :
    (∀ f : FileOp, Op.file f ∈ ops →
      (resolvePath env.cwd (pathParent srcA)).isPrefixOf f.src.components
        = true)
    ∧ (∀ r ∈ rules, r.enabled = true → r.embedded = false → r.isTree = false →
        ∀ m ∈ fileRuleMatches env (pathParent srcA) (pyStem (pathName srcA)) r,
          (resolvePath env.cwd (pathParent srcA)).isPrefixOf
            (resolvePath env.cwd m) = true) := by
  unfold planSidecarOps at h
  have h' : (match validateRulesForAudio rules (pyStem (pathName dstA)) with
      | .error e => (Except.error e : Except String (List Op))
      | .ok () => planRules env (pathParent srcA) (pathParent dstA)
          (pyStem (pathName srcA)) (pyStem (pathName dstA)) metadata conflict
          rules) = .ok ops := h
  cases hv : validateRulesForAudio rules (pyStem (pathName dstA)) with
  | error e => rw [hv] at h'; cases h'
  | ok u =>
    cases u
    rw [hv] at h'
    exact planRules_spec env (pathParent srcA) (pathParent dstA)
      (pyStem (pathName srcA)) (pyStem (pathName dstA)) metadata conflict
      rules ops h'

/-- C1 witness: one enabled `{base}.lrc` rule, a glob oracle returning a
single in-directory match, and a successful plan. -/
theorem claim_C1_witness :
    planSidecarOps
        ⟨[], fun s => if s == "/a/x.lrc" then [⟨true, ["a", "x.lrc"]⟩] else [],
          fun _ => false⟩
        ⟨true, ["a", "x.flac"]⟩ ⟨true, ["a", "y.flac"]⟩
        [⟨"lyrics", false, true, "move", "", "{base}.lrc"⟩] none .rename
      = .ok [.file ⟨⟨true, ["a", "x.lrc"]⟩, ⟨true, ["a", "y.lrc"]⟩,
          "move", .rename⟩]
    ∧ ((∀ f : FileOp,
        Op.file f ∈ [Op.file ⟨⟨true, ["a", "x.lrc"]⟩, ⟨true, ["a", "y.lrc"]⟩,
            "move", .rename⟩] →
        (resolvePath [] (pathParent ⟨true, ["a", "x.flac"]⟩)).isPrefixOf
          f.src.components = true)
      ∧ (∀ r ∈ [(⟨"lyrics", false, true, "move", "", "{base}.lrc"⟩
            : SidecarRule)],
          r.enabled = true → r.embedded = false → r.isTree = false →
          ∀ m ∈ fileRuleMatches
              ⟨[], fun s => if s == "/a/x.lrc" then [⟨true, ["a", "x.lrc"]⟩]
                else [], fun _ => false⟩
              (pathParent ⟨true, ["a", "x.flac"]⟩)
              (pyStem (pathName ⟨true, ["a", "x.flac"]⟩)) r,
            (resolvePath [] (pathParent ⟨true, ["a", "x.flac"]⟩)).isPrefixOf
              (resolvePath [] m) = true)) :=
  ⟨rfl, claim_C1
    ⟨[], fun s => if s == "/a/x.lrc" then [⟨true, ["a", "x.lrc"]⟩] else [],
      fun _ => false⟩
    ⟨true, ["a", "x.flac"]⟩ ⟨true, ["a", "y.flac"]⟩
    [⟨"lyrics", false, true, "move", "", "{base}.lrc"⟩] none .rename
    [.file ⟨⟨true, ["a", "x.lrc"]⟩, ⟨true, ["a", "y.lrc"]⟩, "move", .rename⟩]
    rfl⟩

/-- The tree rule the claim quantifies over: filemask `../{base}.extras/**`. -/
def treeExtrasRule : SidecarRule :=
  ⟨"extras", false, true, "move", "", "../{base}.extras/**"⟩

lemma normAppend_cons (acc : List String) (c : String) (cs : List String) :
    normAppend acc (c :: cs) =
      if c == ".." then normAppend acc.dropLast cs
      else if c == "." || c == "" then normAppend acc cs
      else normAppend (acc ++ [c]) cs := rfl

lemma normAppend_append (l₁ : List String) :
    ∀ (acc l₂ : List String),
      normAppend acc (l₁ ++ l₂) = normAppend (normAppend acc l₁) l₂ := by
  induction l₁ with
  | nil => intro acc l₂; rfl
  | cons c cs ih =>
    intro acc l₂
    rw [List.cons_append, normAppend_cons, normAppend_cons]
    by_cases h1 : (c == "..") = true
    · rw [if_pos h1, if_pos h1, ih]
    · rw [if_neg h1, if_neg h1]
      by_cases h2 : (c == "." || c == "") = true
      · rw [if_pos h2, if_pos h2, ih]
      · rw [if_neg h2, if_neg h2, ih]

lemma normAppend_pair (acc : List String) (d : String)
    (h1 : (d == "..") = false) (h2 : (d == ".") = false)
    (h3 : (d == "") = false) :
    normAppend acc ["..", d] = acc.dropLast ++ [d] := by
  rw [normAppend_cons, if_pos (by decide : ((".." : String) == "..") = true)]
  rw [normAppend_cons, if_neg (by simp [h1]), if_neg (by simp [h2, h3])]
  rfl

lemma splitSeg_no_slash :
    ∀ (l : List Char), (∀ c ∈ l, ¬(c = '/')) → splitSeg l = [l] := by
  intro l h
  induction l with
  | nil => rfl
  | cons c cs ih =>
    have hc : ¬(c == '/') = true := by
      simp only [beq_iff_eq]
      exact h c (List.mem_cons_self c cs)
    unfold splitSeg
    rw [if_neg hc, ih (fun x hx => h x (List.mem_cons_of_mem c hx))]

lemma expandMask_extras (bse : String) :
    expandMask "../{base}.extras" bse = "../" ++ bse ++ ".extras" := rfl

lemma extras_len (bse : String) :
    (bse ++ ".extras").length = bse.length + 7 := by
  rw [String.length_append]
  rfl

lemma extras_ne_updir (bse : String) : ((bse ++ ".extras") == "..") = false := by
  rw [beq_eq_false_iff_ne]
  intro he
  have hl := congrArg String.length he
  rw [extras_len] at hl
  have : (".." : String).length = 2 := rfl
  omega

lemma extras_ne_dot (bse : String) : ((bse ++ ".extras") == ".") = false := by
  rw [beq_eq_false_iff_ne]
  intro he
  have hl := congrArg String.length he
  rw [extras_len] at hl
  have : ("." : String).length = 1 := rfl
  omega

lemma extras_ne_nil (bse : String) : ((bse ++ ".extras") == "") = false := by
  rw [beq_eq_false_iff_ne]
  intro he
  have hl := congrArg String.length he
  rw [extras_len] at hl
  have : ("" : String).length = 0 := rfl
  omega

lemma splitMask_dotdot (bse : String) (hb : ∀ c ∈ bse.data, ¬(c = '/')) :
    splitMask ("../" ++ bse ++ ".extras") = ["..", bse ++ ".extras"] := by
  have hdata : ("../" ++ bse ++ ".extras").data
      = '.' :: '.' :: '/' :: (bse.data ++ ".extras".data) := rfl
  have hX : ∀ c ∈ (bse.data ++ ".extras".data), ¬(c = '/') := by
    intro c hc
    rcases List.mem_append.mp hc with hc | hc
    · exact hb c hc
    · exact (by decide : ∀ c ∈ (".extras".data), ¬(c = '/')) c hc
  have h3 : splitSeg (bse.data ++ ".extras".data)
      = [bse.data ++ ".extras".data] := splitSeg_no_slash _ hX
  have h2 : splitSeg ('/' :: (bse.data ++ ".extras".data))
      = [] :: [bse.data ++ ".extras".data] := by
    unfold splitSeg
    rw [if_pos (by decide), h3]
  have h1 : splitSeg ('.' :: '/' :: (bse.data ++ ".extras".data))
      = ['.'] :: [bse.data ++ ".extras".data] := by
    unfold splitSeg
    rw [if_neg (by decide), h2]
  have h0 : splitSeg ('.' :: '.' :: '/' :: (bse.data ++ ".extras".data))
      = ['.', '.'] :: [bse.data ++ ".extras".data] := by
    unfold splitSeg
    rw [if_neg (by decide), h1]
  unfold splitMask
  rw [hdata, h0]
  show ([("..": String), ⟨bse.data ++ ".extras".data⟩]).filter
      (fun c => !(c == "") && !(c == ".")) = _
  have hmk : (⟨bse.data ++ ".extras".data⟩ : String) = bse ++ ".extras" := rfl
  rw [hmk]
  rw [List.filter_cons_of_pos (by decide)]
  rw [List.filter_cons_of_pos
    (by rw [extras_ne_nil, extras_ne_dot]; rfl)]
  rfl

lemma isPrefixOf_dropLast_snoc :
    ∀ (S : List String) (d : String), S ≠ [] → S.getLast? ≠ some d →
      S.isPrefixOf (S.dropLast ++ [d]) = false := by
  intro S
  induction S with
  | nil => intro d h _; exact absurd rfl h
  | cons x S ih =>
    intro d _ hlast
    cases S with
    | nil =>
      have hx : (x == d) = false := by
        rw [beq_eq_false_iff_ne]
        intro he
        exact hlast (by rw [List.getLast?_singleton, he])
      show (x == d && List.isPrefixOf [] []) = false
      rw [hx]
      rfl
    | cons y S' =>
      have hlast' : (y :: S').getLast? ≠ some d := by
        rw [List.getLast?_cons_cons] at hlast
        exact hlast
      have hdl : (x :: y :: S').dropLast ++ [d]
          = x :: ((y :: S').dropLast ++ [d]) := rfl
      rw [hdl]
      show (x == x && (y :: S').isPrefixOf ((y :: S').dropLast ++ [d])) = false
      rw [ih d (by simp) hlast', beq_self_eq_true]
      rfl

lemma treeSrcResolved_extras (env : FsEnv) (srcDir : PurePath) (bse : String)
    (hb : ∀ c ∈ bse.data, ¬(c = '/')) :
    treeSrcResolved env srcDir bse treeExtrasRule
      = (resolvePath env.cwd srcDir).dropLast ++ [bse ++ ".extras"] := by
  unfold treeSrcResolved
  rw [show treeDirTemplate treeExtrasRule = "../{base}.extras" from rfl]
  rw [expandMask_extras]
  unfold pathJoin
  rw [show strIsAbs ("../" ++ bse ++ ".extras") = false from rfl]
  simp only [Bool.false_eq_true, if_false]
  rw [splitMask_dotdot bse hb]
  show normAppend (if srcDir.absolute then [] else env.cwd)
      (srcDir.components ++ ["..", bse ++ ".extras"]) = _
  rw [normAppend_append]
  rw [normAppend_pair _ _ (extras_ne_updir bse) (extras_ne_dot bse)
    (extras_ne_nil bse)]
  rfl

/-- C6 counterexample: when the source directory's own final component equals
the expanded directory name (`b.extras` for base `b`), the `..`-mask resolves
back to the source directory itself, `relative_to` succeeds, and a tree
operation is emitted — no configuration error. -/
theorem claim_C6_counterexample :
    planSidecarOps ⟨[], fun _ => [], fun _ => true⟩
        ⟨true, ["a", "b.extras", "b.flac"]⟩ ⟨true, ["c", "nb.flac"]⟩
        [treeExtrasRule] none .rename
      = .ok [.tree ⟨⟨true, ["a", "b.extras"]⟩,
          ⟨true, ["c", "..", "nb.extras"]⟩, "move", .rename⟩] := rfl

/-- C6 (amended): planning the tree rule `../{base}.extras/**` fails with a
configuration error whenever the resolved source directory is not the
filesystem root and its final component differs from the expanded name
`{srcBase}.extras`; in the two excluded cases the resolved candidate collapses
onto the source directory itself and is accepted (see the counterexample).
The base name is assumed slash-free, as a stem of a real file name is. -/
theorem claim_C6 (env : FsEnv) (srcA dstA : PurePath)
    (metadata : Option (String → Option Bool)) (conflict : ConflictPolicy)
    (hb : ∀ c ∈ (pyStem (pathName srcA)).data, ¬(c = '/'))
    (hroot : resolvePath env.cwd (pathParent srcA) ≠ [])
    (hlast : (resolvePath env.cwd (pathParent srcA)).getLast?
        ≠ some (pyStem (pathName srcA) ++ ".extras")) :
    ∃ e, planSidecarOps env srcA dstA [treeExtrasRule] metadata conflict
      = .error e := by
  have hval : validateRulesForAudio [treeExtrasRule]
      (pyStem (pathName dstA)) = .ok () := by
    unfold validateRulesForAudio
    rw [show validateRulesStatic [treeExtrasRule] = .ok () from rfl]
    show checkExpanded (pyStem (pathName dstA)) [treeExtrasRule] [] = .ok ()
    rw [checkExpanded_cons,
      if_pos (by decide : activeRule treeExtrasRule = true)]
    rfl
  have hpre : (resolvePath env.cwd (pathParent srcA)).isPrefixOf
      (treeSrcResolved env (pathParent srcA) (pyStem (pathName srcA))
        treeExtrasRule) = false := by
    rw [treeSrcResolved_extras env (pathParent srcA) _ hb]
    exact isPrefixOf_dropLast_snoc _ _ hroot hlast
  refine ⟨"Tree path escapes source directory: "
      ++ renderPath ⟨true, treeSrcResolved env (pathParent srcA)
        (pyStem (pathName srcA)) treeExtrasRule⟩, ?_⟩
  show (match validateRulesForAudio [treeExtrasRule]
        (pyStem (pathName dstA)) with
    | .error e => (Except.error e : Except String (List Op))
    | .ok () => planRules env (pathParent srcA) (pathParent dstA)
        (pyStem (pathName srcA)) (pyStem (pathName dstA)) metadata conflict
        [treeExtrasRule]) = _
  rw [hval]
  show (match planRule env (pathParent srcA) (pathParent dstA)
        (pyStem (pathName srcA)) (pyStem (pathName dstA)) metadata conflict
        treeExtrasRule with
    | .error e => (Except.error e : Except String (List Op))
    | .ok ops₁ =>
      match planRules env (pathParent srcA) (pathParent dstA)
          (pyStem (pathName srcA)) (pyStem (pathName dstA)) metadata conflict
          [] with
      | .error e => .error e
      | .ok rest => .ok (ops₁ ++ rest)) = _
  rw [show planRule env (pathParent srcA) (pathParent dstA)
      (pyStem (pathName srcA)) (pyStem (pathName dstA)) metadata conflict
      treeExtrasRule
    = (if (resolvePath env.cwd (pathParent srcA)).isPrefixOf
          (treeSrcResolved env (pathParent srcA) (pyStem (pathName srcA))
            treeExtrasRule) = true then
        (if env.treeExists (treeSrcResolved env (pathParent srcA)
            (pyStem (pathName srcA)) treeExtrasRule) = true then
          .ok [Op.tree ⟨⟨true, treeSrcResolved env (pathParent srcA)
              (pyStem (pathName srcA)) treeExtrasRule⟩,
            pathJoin (pathParent dstA) (expandMask
              (treeDirTemplate treeExtrasRule) (pyStem (pathName dstA))),
            treeExtrasRule.move_mode, conflict⟩]
        else .ok [])
      else .error ("Tree path escapes source directory: "
        ++ renderPath ⟨true, treeSrcResolved env (pathParent srcA)
          (pyStem (pathName srcA)) treeExtrasRule⟩)) from rfl]
  rw [hpre]
  rfl

/-- C6 witness: a concrete source file `/a/b/x.flac` whose directory `b` does
not end in `x.extras`, so planning the escape-attempting tree rule fails. -/
theorem claim_C6_witness :
    (∀ c ∈ (pyStem (pathName ⟨true, ["a", "b", "x.flac"]⟩)).data, ¬(c = '/'))
    ∧ resolvePath [] (pathParent ⟨true, ["a", "b", "x.flac"]⟩) ≠ []
    ∧ (resolvePath [] (pathParent ⟨true, ["a", "b", "x.flac"]⟩)).getLast?
        ≠ some (pyStem (pathName ⟨true, ["a", "b", "x.flac"]⟩) ++ ".extras")
    ∧ ∃ e, planSidecarOps ⟨[], fun _ => [], fun _ => true⟩
        ⟨true, ["a", "b", "x.flac"]⟩ ⟨true, ["c", "y.flac"]⟩
        [treeExtrasRule] none .rename = .error e :=
  ⟨by decide, by decide, by decide,
    claim_C6 ⟨[], fun _ => [], fun _ => true⟩
      ⟨true, ["a", "b", "x.flac"]⟩ ⟨true, ["c", "y.flac"]⟩ none .rename
      (by decide) (by decide) (by decide)⟩
